import Mathlib

/-!
Shallow embedding of the analytics engine of `stockPymes_v1/app/custom_logic.py`.

Modelling conventions, fixed once for the whole file:

* A pandas `DataFrame` is a `List` of row structures, one structure per table
  (`StockRow`, `VentaRow`, `HistRow`), in the frame's row order.
* A pandas `Timestamp` (the parsed `Fecha` column) is a `Fecha` record of
  calendar year/month/day.  `Fecha.toOrdinal` is the standard civil-calendar
  day number (Hinnant's days-from-civil algorithm), so subtraction of
  ordinals is exactly `(a - b).days` on timestamps and comparison of
  ordinals is exactly timestamp comparison.
* Python `float` results are exact rationals (`Rat`); the possibility of a
  `NaN` (which the source produces from `NaT` arithmetic on empty tables)
  is modelled by `Option`: `none` is `NaN`/`NaT`, `some q` is the number
  `q`.  Any comparison against `NaN` is `false`, as in Python.
* `round(x, 2)` is round-half-to-even at two decimals on the exact rational.
* the first-match row lookup `iloc` is `List.find?`; the `IndexError` it raises
  when no row matches is modelled by the enclosing function returning
  `none` (functions that can raise return `Option`).
* `groupby on SKU and summing units` sorts the group keys ascendingly (pandas
  default `sort=True`); the resulting series is a `List (Int × Int)` of
  (key, sum) pairs in ascending key order.
* descending `sort_values` uses an unstable quicksort in pandas, so
  the relative order of equal values is unspecified; it is modelled by a
  deterministic insertion sort on the descending-value relation.
* A Python dict is a `List` of key/value pairs in key-insertion order.
  The source builds its dicts with stringified integer keys; since that
  rendering is injective on the integer SKUs, the model keys the entries
  by the integer SKU itself.
-/

/-- A calendar date (the parsed `Fecha` column). -/
structure Fecha where
  year : Int
  month : Int
  day : Int
deriving DecidableEq, Repr

/-- Civil-calendar day number of a date (days-from-civil).  For the valid
dates produced by the ingestion layer this matches the day arithmetic of
pandas timestamps: `(a - b).days = a.toOrdinal - b.toOrdinal` and
`a < b ↔ a.toOrdinal < b.toOrdinal`. -/
def Fecha.toOrdinal (dt : Fecha) : Int :=
  let y := if dt.month ≤ 2 then dt.year - 1 else dt.year
  let era := (if 0 ≤ y then y else y - 399) / 400
  let yoe := y - era * 400
  let mp := (dt.month + 9) % 12
  let doy := (153 * mp + 2) / 5 + dt.day - 1
  let doe := yoe * 365 + yoe / 4 - yoe / 100 + doy
  era * 146097 + doe - 719468

/-- A row of the Stock table (`stock.csv`). -/
structure StockRow where
  sku : Int
  producto : String
  categoria : String
  talla : String
  color : String
  stock : Int
  precioUnitario : Int
  umbral : Int
deriving DecidableEq, Repr

/-- A row of the Sales table (`ventas.csv`). -/
structure VentaRow where
  fecha : Fecha
  sku : Int
  unidades : Int
deriving DecidableEq, Repr

/-- A row of the History table (`historico_stock_ventas.csv`). -/
structure HistRow where
  fecha : Fecha
  sku : Int
  stock : Int
  unidades : Int
  reposicion : Int
  precioUnitario : Int
  ingresosBrutos : Int
deriving DecidableEq, Repr

/-- Model of `Series.max` on a date column: `none` is `NaT` (empty column), else the
chronologically greatest date. -/
def maxFecha : List Fecha → Option Fecha
  | [] => none
  | x :: xs => some (xs.foldl (fun a b => if a.toOrdinal < b.toOrdinal then b else a) x)

/-- Model of `Series.min` on a date column. -/
def minFecha : List Fecha → Option Fecha
  | [] => none
  | x :: xs => some (xs.foldl (fun a b => if b.toOrdinal < a.toOrdinal then b else a) x)

/-- Model of `(ventas.Fecha.max() - ventas.Fecha.min()).days + 1`: the inclusive day
span of the Sales dates; `none` models the `NaN` that the source computes
from `NaT` arithmetic when the Sales table is empty. -/
def spanDias (ventas : List VentaRow) : Option Int :=
  match maxFecha (ventas.map (·.fecha)), minFecha (ventas.map (·.fecha)) with
  | some mx, some mn => some (mx.toOrdinal - mn.toOrdinal + 1)
  | _, _ => none

/-- Sum of the values attached to key `k` in a list of (key, value) pairs. -/
def sumUnits (pairs : List (Int × Int)) (k : Int) : Int :=
  ((pairs.filter (fun p => p.1 = k)).map (fun p => p.2)).sum

/-- The distinct keys of the pair list, in ascending order (pandas
`groupby` sorts its keys). -/
def sortedKeys (pairs : List (Int × Int)) : List Int :=
  List.insertionSort (fun a b => a ≤ b) (pairs.map (fun p => p.1)).dedup

/-- Model of the source's per-SKU `groupby` unit sum: one (key, sum) pair per
distinct key, keys in ascending order. -/
def groupSumSorted (pairs : List (Int × Int)) : List (Int × Int) :=
  (sortedKeys pairs).map (fun k => (k, sumUnits pairs k))

/-- Model of reading a series with default 0: the value stored under a key, defaulting to 0. -/
def getSum (g : List (Int × Int)) (k : Int) : Int :=
  match g.find? (fun p => p.1 = k) with
  | some p => p.2
  | none => 0

/-- Model of the source's Stock lookup by SKU: the first Stock row whose
SKU matches, `none` when the lookup would raise `IndexError`. -/
def firstStock (stock : List StockRow) (sku : Int) : Option StockRow :=
  stock.find? (fun r => r.sku = sku)

/-- Deduplication keeping the first occurrence of each element, in input
order — the key order of a Python dict comprehension. -/
def dedupFirst : List Int → List Int
  | [] => []
  | x :: xs => x :: (dedupFirst xs).filter (fun y => y ≠ x)

/-- Floor of a rational, computably (`Rat.num / Rat.den` with Euclidean
division; the denominator is positive, so this is the floor). -/
def ratFloor (q : Rat) : Int := q.num / (q.den : Int)

/-- Round to the nearest integer, ties to even — the rounding mode of
Python's `round`. -/
def roundHalfEven (q : Rat) : Int :=
  if q - (ratFloor q : Rat) < 1 / 2 then ratFloor q
  else if 1 / 2 < q - (ratFloor q : Rat) then ratFloor q + 1
  else if ratFloor q % 2 = 0 then ratFloor q else ratFloor q + 1

/-- Python's `round(x, 2)` on the exact rational value. -/
def round2 (q : Rat) : Rat := ((roundHalfEven (q * 100) : Int) : Rat) / 100

/-- Python `<` lifted to possibly-`NaN` operands: any comparison with
`NaN` is false. -/
def optLt : Option Rat → Option Rat → Prop
  | some x, some y => x < y
  | _, _ => False

instance : (a : Option Rat) → (b : Option Rat) → Decidable (optLt a b)
  | some x, some y => inferInstanceAs (Decidable (x < y))
  | some _, none => isFalse (fun h => h)
  | none, some _ => isFalse (fun h => h)
  | none, none => isFalse (fun h => h)

/-- Product `x * q` for a possibly-`NaN` `q` (`umbral * media_global`). -/
def optScale (x : Rat) (q : Option Rat) : Option Rat := q.map (fun m => x * m)

/-- Model of `round(total / dias, 2) if dias else 0` — the per-SKU entry of the
velocity and average maps.  `dias = NaN` is truthy in Python, and a
division by `NaN` gives `NaN`. -/
def velEntry (dias : Option Int) (total : Int) : Option Rat :=
  match dias with
  | none => none
  | some d => if d = 0 then some 0 else some (round2 ((total : Rat) / (d : Rat)))

/-- Model of `total / dias if dias else 0` — the per-SKU `media_diaria` of the
slow-rotation scan (same truthiness as `velEntry`, no rounding). -/
def mediaDiariaVal (dias : Option Int) (total : Int) : Option Rat :=
  match dias with
  | none => none
  | some d => if d = 0 then some 0 else some ((total : Rat) / (d : Rat))

-- --- the engine functions (`custom_logic.py`), in source order ---

/-- Source `productos_bajo_stock`: every Stock row with `Stock <= Umbral`,
records as stored. -/
def productos_bajo_stock (stock_df : List StockRow) : List StockRow :=
  stock_df.filter (fun r => r.stock ≤ r.umbral)

/-- The `media_global` of `productos_rotacion_lenta`:
total units over `len(ventas_por_sku) * dias` guarded by
`if dias and len(ventas_por_sku) else 0`.  When `dias` is `NaN` (truthy)
and there are groups the division yields `NaN`; that branch is
unreachable because `dias` is `NaN` only for an empty Sales table. -/
def mediaGlobal (ventas_df : List VentaRow) : Option Rat :=
  let g := groupSumSorted (ventas_df.map (fun v => (v.sku, v.unidades)))
  let dias := spanDias ventas_df
  let total : Int := (ventas_df.map (·.unidades)).sum
  match dias with
  | none => if g.length = 0 then some 0 else none
  | some d => if d ≠ 0 ∧ g.length ≠ 0
      then some ((total : Rat) / ((g.length : Rat) * (d : Rat)))
      else some 0

/-- An output row of `productos_rotacion_lenta`: the looked-up Stock
record with the `media_diaria` key added. -/
structure RotOut where
  row : StockRow
  mediaDiaria : Option Rat
deriving DecidableEq, Repr

/-- The per-SKU totals loop of
`productos_rotacion_lenta`; `none` models the `IndexError` raised by
`iloc[0]` when a flagged SKU has no Stock row. -/
def rotLoop (stock_df : List StockRow) (dias : Option Int) (mg : Option Rat)
    (umbral : Rat) : List (Int × Int) → Option (List RotOut)
  | [] => some []
  | (sku, total) :: rest =>
    let md := mediaDiariaVal dias total
    if optLt md (optScale umbral mg) then
      match firstStock stock_df sku with
      | none => none
      | some r => (rotLoop stock_df dias mg umbral rest).map (fun l => ⟨r, md⟩ :: l)
    else rotLoop stock_df dias mg umbral rest

/-- Source `productos_rotacion_lenta` (threshold defaults to 0.5 in the source).
The History argument is taken but unused, as in the source. -/
def productos_rotacion_lenta (ventas_df : List VentaRow) (historico_df : List HistRow)
    (stock_df : List StockRow) (umbral : Rat) : Option (List RotOut) :=
  let g := groupSumSorted (ventas_df.map (fun v => (v.sku, v.unidades)))
  rotLoop stock_df (spanDias ventas_df) (mediaGlobal ventas_df) umbral g

/-- Source `productos_muertos` (idle-day threshold defaults to 14 in the source):
for each SKU of the Stock table in row order, emit the first Stock row of
that SKU when it never sold (`ult_venta` is `NaT`) or its last sale is at
least `umbralDias` days before the maximum Sales date. -/
def productos_muertos (ventas_df : List VentaRow) (stock_df : List StockRow)
    (umbralDias : Int) : List StockRow :=
  let fechaMax := maxFecha (ventas_df.map (·.fecha))
  (stock_df.map (fun r => r.sku)).filterMap (fun sku =>
    let ultVenta := maxFecha ((ventas_df.filter (fun v => v.sku = sku)).map (·.fecha))
    match ultVenta, fechaMax with
    | none, _ => firstStock stock_df sku
    | some u, some m =>
        if umbralDias ≤ m.toOrdinal - u.toOrdinal then firstStock stock_df sku else none
    | some _, none => none)

/-- An output row of `top_n_vendidos_mes`: the looked-up Stock record with
the `total_vendido_mes` key added. -/
structure TopOut where
  row : StockRow
  totalVendidoMes : Int
deriving DecidableEq, Repr

/-- The lookup loop of `top_n_vendidos_mes`; `none` models the
`IndexError` of `iloc[0]` when a ranked SKU has no Stock row. -/
def lookupTop (stock_df : List StockRow) : List (Int × Int) → Option (List TopOut)
  | [] => some []
  | (sku, total) :: rest =>
    match firstStock stock_df sku with
    | none => none
    | some r => (lookupTop stock_df rest).map (fun l => ⟨r, total⟩ :: l)

/-- Source `top_n_vendidos_mes` (`n` defaults to 5 in the source): restrict Sales
to the calendar month/year of the maximum Sales date, sum units per SKU,
sort descending, take `n`, and attach the Stock record of each SKU. -/
def top_n_vendidos_mes (ventas_df : List VentaRow) (stock_df : List StockRow)
    (n : Nat) : Option (List TopOut) :=
  if ventas_df = [] then some []
  else
    match maxFecha (ventas_df.map (·.fecha)) with
    | none => some []
    | some mx =>
      let mesDf := ventas_df.filter (fun v => v.fecha.month = mx.month ∧ v.fecha.year = mx.year)
      let ranking :=
        (List.insertionSort (fun a b : Int × Int => b.2 ≤ a.2)
          (groupSumSorted (mesDf.map (fun v => (v.sku, v.unidades))))).take n
      lookupTop stock_df ranking

/-- Source `estimaciones_velocidad_venta`: one entry per distinct Stock SKU, in
first-occurrence order (dict comprehension), value
`round(ventas.get(sku, 0) / dias, 2) if dias else 0`. -/
def estimaciones_velocidad_venta (ventas_df : List VentaRow)
    (stock_df : List StockRow) : List (Int × Option Rat) :=
  let dias := spanDias ventas_df
  let ventasG := groupSumSorted (ventas_df.map (fun v => (v.sku, v.unidades)))
  (dedupFirst (stock_df.map (fun r => r.sku))).map
    (fun sku => (sku, velEntry dias (getSum ventasG sku)))

/-- Source `promedios_unidades_vendidas`: like the velocity map but keyed by the
SKUs that actually appear in Sales (the groupby index, ascending). -/
def promedios_unidades_vendidas (ventas_df : List VentaRow) : List (Int × Option Rat) :=
  let dias := spanDias ventas_df
  let ventasG := groupSumSorted (ventas_df.map (fun v => (v.sku, v.unidades)))
  (ventasG.map (fun p => p.1)).map
    (fun sku => (sku, velEntry dias (getSum ventasG sku)))

/-- The record returned by `metricas_globales`. -/
structure Metricas where
  totalStock : Int
  totalVendido : Int
  numProductos : Int
  numRoturasDetectadas : Int
  numReposicionesDetectadas : Int
  mediaRotacionPorProducto : Rat
deriving DecidableEq, Repr

/-- Source `metricas_globales`. -/
def metricas_globales (stock_df : List StockRow) (ventas_df : List VentaRow)
    (historico_df : List HistRow) : Metricas :=
  let totalStock : Int := (stock_df.map (·.stock)).sum
  let totalVendido : Int := (ventas_df.map (·.unidades)).sum
  let numProductos : Int := ((stock_df.map (·.sku)).dedup).length
  let roturas : Int := (historico_df.filter (fun r => r.stock = 0)).length
  let reposiciones : Int := (historico_df.filter (fun r => r.reposicion = 1)).length
  let mediaRotacion : Rat :=
    if numProductos ≠ 0 then round2 ((totalVendido : Rat) / (numProductos : Rat)) else 0
  ⟨totalStock, totalVendido, numProductos, roturas, reposiciones, mediaRotacion⟩

/-- An event emitted by `eventos_detectados` (the source stores the date
as a date string, an injective rendering of the date). -/
structure Evento where
  tipo : String
  sku : Int
  fecha : Fecha
deriving DecidableEq, Repr

/-- The stockout event of a History row. -/
def mkRotura (r : HistRow) : Evento := ⟨"rotura_stock", r.sku, r.fecha⟩

/-- The restock event of a History row. -/
def mkReposicion (r : HistRow) : Evento := ⟨"reposicion", r.sku, r.fecha⟩

/-- Source `eventos_detectados`: scan the History rows in order; a row emits a
`rotura_stock` event if `Stock == 0` and then a `reposicion` event if
`Reposicion == 1`. -/
def eventos_detectados : List HistRow → List Evento
  | [] => []
  | r :: rest =>
    ((if r.stock = 0 then [mkRotura r] else []) ++
      (if r.reposicion = 1 then [mkReposicion r] else [])) ++ eventos_detectados rest

/-- The record returned by `resumen_global_dashboard`. -/
structure Resumen where
  totalProductos : Int
  totalVendido : Int
  promedioRotacion : Rat
deriving DecidableEq, Repr

/-- Source `resumen_global_dashboard`.  The source also computes `dias` here and
never uses it; that dead computation is omitted. -/
def resumen_global_dashboard (stock_df : List StockRow) (ventas_df : List VentaRow)
    (historico_df : List HistRow) : Resumen :=
  let totalProductos : Int := ((stock_df.map (·.sku)).dedup).length
  let totalVendido : Int := (ventas_df.map (·.unidades)).sum
  let mediaRotacion : Rat :=
    if totalProductos ≠ 0 then round2 ((totalVendido : Rat) / (totalProductos : Rat)) else 0
  ⟨totalProductos, totalVendido, mediaRotacion⟩

/-- An output row of `top_3_vendidos_dashboard`. -/
structure Top3Out where
  nombre : String
  sku : Int
  totalVendido : Int
deriving DecidableEq, Repr

/-- The lookup loop of `top_3_vendidos_dashboard`; `none` models the
`IndexError` of `iloc[0]` when a ranked SKU has no Stock row. -/
def lookupTop3 (stock_df : List StockRow) : List (Int × Int) → Option (List Top3Out)
  | [] => some []
  | (sku, total) :: rest =>
    match firstStock stock_df sku with
    | none => none
    | some r => (lookupTop3 stock_df rest).map (fun l => ⟨r.producto, sku, total⟩ :: l)

/-- Source `top_3_vendidos_dashboard`: rank the whole Sales history per SKU
descending, take 3, project to name/SKU/total. -/
def top_3_vendidos_dashboard (ventas_df : List VentaRow)
    (stock_df : List StockRow) : Option (List Top3Out) :=
  let ranking :=
    (List.insertionSort (fun a b : Int × Int => b.2 ≤ a.2)
      (groupSumSorted (ventas_df.map (fun v => (v.sku, v.unidades))))).take 3
  lookupTop3 stock_df ranking

/-- Source `fecha_ultimo_analisis`: the later of the maximum Sales date and the
maximum History date; `none` models the `""` sentinel returned when both
tables are empty. -/
def fecha_ultimo_analisis (ventas_df : List VentaRow)
    (historico_df : List HistRow) : Option Fecha :=
  let fv := maxFecha (ventas_df.map (·.fecha))
  let fh := maxFecha (historico_df.map (·.fecha))
  maxFecha (fv.toList ++ fh.toList)

-- --- helper lemmas ---

/-- The running maximum of the fold in `maxFecha` is one of the inputs. -/
theorem foldl_max_mem (x : Fecha) (xs : List Fecha) :
    xs.foldl (fun a b => if a.toOrdinal < b.toOrdinal then b else a) x ∈ x :: xs := by
  induction xs generalizing x with
  | nil => simp
  | cons y ys ih =>
    simp only [List.foldl_cons]
    rcases List.mem_cons.mp (ih (if x.toOrdinal < y.toOrdinal then y else x)) with h | h
    · rw [h]
      by_cases hxy : x.toOrdinal < y.toOrdinal
      · simp [hxy]
      · simp [hxy]
    · exact List.mem_cons_of_mem _ (List.mem_cons_of_mem _ h)

/-- The fold in `maxFecha` bounds every input from above (by ordinal). -/
theorem foldl_max_ub (x : Fecha) (xs : List Fecha) :
    ∀ z ∈ x :: xs, z.toOrdinal ≤
      (xs.foldl (fun a b => if a.toOrdinal < b.toOrdinal then b else a) x).toOrdinal := by
  induction xs generalizing x with
  | nil =>
    intro z hz
    rcases List.mem_cons.mp hz with h | h
    · subst h; simp
    · cases h
  | cons y ys ih =>
    intro z hz
    simp only [List.foldl_cons]
    have hacc : ∀ w ∈ (if x.toOrdinal < y.toOrdinal then y else x) :: ys,
        w.toOrdinal ≤ ((ys.foldl (fun a b => if a.toOrdinal < b.toOrdinal then b else a)
          (if x.toOrdinal < y.toOrdinal then y else x)).toOrdinal) :=
      ih (if x.toOrdinal < y.toOrdinal then y else x)
    have hx : x.toOrdinal ≤ (if x.toOrdinal < y.toOrdinal then y else x).toOrdinal := by
      by_cases hxy : x.toOrdinal < y.toOrdinal
      · simp [hxy]; omega
      · simp [hxy]
    have hy : y.toOrdinal ≤ (if x.toOrdinal < y.toOrdinal then y else x).toOrdinal := by
      by_cases hxy : x.toOrdinal < y.toOrdinal
      · simp [hxy]
      · simp [hxy]; omega
    rcases List.mem_cons.mp hz with h | h
    · subst h
      exact le_trans hx (hacc _ (List.mem_cons_self _ _))
    · rcases List.mem_cons.mp h with h2 | h2
      · subst h2
        exact le_trans hy (hacc _ (List.mem_cons_self _ _))
      · exact hacc _ (List.mem_cons_of_mem _ h2)

/-- The running minimum of the fold in `minFecha` is one of the inputs. -/
theorem foldl_min_mem (x : Fecha) (xs : List Fecha) :
    xs.foldl (fun a b => if b.toOrdinal < a.toOrdinal then b else a) x ∈ x :: xs := by
  induction xs generalizing x with
  | nil => simp
  | cons y ys ih =>
    simp only [List.foldl_cons]
    rcases List.mem_cons.mp (ih (if y.toOrdinal < x.toOrdinal then y else x)) with h | h
    · rw [h]
      by_cases hxy : y.toOrdinal < x.toOrdinal
      · simp [hxy]
      · simp [hxy]
    · exact List.mem_cons_of_mem _ (List.mem_cons_of_mem _ h)

/-- The fold in `minFecha` bounds every input from below (by ordinal). -/
theorem foldl_min_lb (x : Fecha) (xs : List Fecha) :
    ∀ z ∈ x :: xs,
      (xs.foldl (fun a b => if b.toOrdinal < a.toOrdinal then b else a) x).toOrdinal ≤
        z.toOrdinal := by
  induction xs generalizing x with
  | nil =>
    intro z hz
    rcases List.mem_cons.mp hz with h | h
    · subst h; simp
    · cases h
  | cons y ys ih =>
    intro z hz
    simp only [List.foldl_cons]
    have hacc := ih (if y.toOrdinal < x.toOrdinal then y else x)
    have hx : (if y.toOrdinal < x.toOrdinal then y else x).toOrdinal ≤ x.toOrdinal := by
      by_cases hxy : y.toOrdinal < x.toOrdinal
      · simp [hxy]; omega
      · simp [hxy]
    have hy : (if y.toOrdinal < x.toOrdinal then y else x).toOrdinal ≤ y.toOrdinal := by
      by_cases hxy : y.toOrdinal < x.toOrdinal
      · simp [hxy]
      · simp [hxy]; omega
    rcases List.mem_cons.mp hz with h | h
    · subst h
      exact le_trans (hacc _ (List.mem_cons_self _ _)) hx
    · rcases List.mem_cons.mp h with h2 | h2
      · subst h2
        exact le_trans (hacc _ (List.mem_cons_self _ _)) hy
      · exact hacc _ (List.mem_cons_of_mem _ h2)

/-- The maximum date is `NaT` exactly on the empty column. -/
theorem maxFecha_eq_none {l : List Fecha} : maxFecha l = none ↔ l = [] := by
  cases l <;> simp [maxFecha]

/-- The maximum date is one of the dates. -/
theorem maxFecha_mem {l : List Fecha} {m : Fecha} (h : maxFecha l = some m) : m ∈ l := by
  cases l with
  | nil => cases h
  | cons x xs =>
    simp only [maxFecha, Option.some_inj] at h
    rw [← h]
    exact foldl_max_mem x xs

/-- The maximum date bounds every date of the column. -/
theorem maxFecha_ub {l : List Fecha} {m : Fecha} (h : maxFecha l = some m) :
    ∀ z ∈ l, z.toOrdinal ≤ m.toOrdinal := by
  cases l with
  | nil => cases h
  | cons x xs =>
    simp only [maxFecha, Option.some_inj] at h
    rw [← h]
    exact foldl_max_ub x xs

/-- The minimum date bounds every date of the column from below. -/
theorem minFecha_lb {l : List Fecha} {m : Fecha} (h : minFecha l = some m) :
    ∀ z ∈ l, m.toOrdinal ≤ z.toOrdinal := by
  cases l with
  | nil => cases h
  | cons x xs =>
    simp only [minFecha, Option.some_inj] at h
    rw [← h]
    exact foldl_min_lb x xs

/-- The day span is `NaN` exactly for an empty Sales table. -/
theorem spanDias_eq_none {ventas : List VentaRow} : spanDias ventas = none ↔ ventas = [] := by
  cases ventas <;> simp [spanDias, maxFecha, minFecha]

/-- When defined, the inclusive day span is at least 1 (the source never
produces a zero span). -/
theorem spanDias_pos {ventas : List VentaRow} {d : Int} (h : spanDias ventas = some d) :
    1 ≤ d := by
  unfold spanDias at h
  cases hmx : maxFecha (ventas.map (·.fecha)) with
  | none => rw [hmx] at h; cases h
  | some mx =>
    cases hmn : minFecha (ventas.map (·.fecha)) with
    | none => rw [hmx, hmn] at h; cases h
    | some mn =>
      rw [hmx, hmn] at h
      simp only [Option.some_inj] at h
      have h1 : mn.toOrdinal ≤ mx.toOrdinal :=
        minFecha_lb hmn mx (maxFecha_mem hmx)
      omega

/-- Unit sums unfold one pair at a time. -/
theorem sumUnits_cons (p : Int × Int) (ps : List (Int × Int)) (k : Int) :
    sumUnits (p :: ps) k = (if p.1 = k then p.2 else 0) + sumUnits ps k := by
  by_cases h : p.1 = k <;> simp [sumUnits, List.filter_cons, h]

/-- Keys absent from the pair list sum to 0. -/
theorem sumUnits_eq_zero {pairs : List (Int × Int)} {k : Int}
    (h : k ∉ pairs.map (fun p => p.1)) : sumUnits pairs k = 0 := by
  induction pairs with
  | nil => rfl
  | cons p ps ih =>
    simp only [List.map_cons, List.mem_cons, not_or] at h
    have hk : ¬ p.1 = k := fun hc => h.1 hc.symm
    rw [sumUnits_cons, if_neg hk, ih h.2]
    omega

/-- Membership in `sortedKeys` is membership among the original keys. -/
theorem mem_sortedKeys {pairs : List (Int × Int)} {k : Int} :
    k ∈ sortedKeys pairs ↔ k ∈ pairs.map (fun p => p.1) :=
  ((List.perm_insertionSort _ _).mem_iff).trans List.mem_dedup

/-- The sorted key list has no duplicates. -/
theorem nodup_sortedKeys (pairs : List (Int × Int)) : (sortedKeys pairs).Nodup :=
  ((List.perm_insertionSort _ _).nodup_iff).mpr (List.nodup_dedup _)

/-- The first components of the grouped sums are exactly `sortedKeys`. -/
theorem keys_groupSumSorted (pairs : List (Int × Int)) :
    (groupSumSorted pairs).map (fun p => p.1) = sortedKeys pairs := by
  unfold groupSumSorted
  generalize sortedKeys pairs = l
  induction l with
  | nil => rfl
  | cons a l ih => simp [ih]

/-- Every grouped pair is a key of the input together with its key sum. -/
theorem mem_groupSumSorted {pairs : List (Int × Int)} {p : Int × Int}
    (h : p ∈ groupSumSorted pairs) :
    p.2 = sumUnits pairs p.1 ∧ p.1 ∈ pairs.map (fun q => q.1) := by
  rcases List.mem_map.mp h with ⟨k, hk, hp⟩
  rw [← hp]
  exact ⟨rfl, mem_sortedKeys.mp hk⟩

/-- Grouping returns the empty series exactly on empty input. -/
theorem groupSumSorted_eq_nil {pairs : List (Int × Int)} :
    groupSumSorted pairs = [] ↔ pairs = [] := by
  constructor
  · intro h
    have h2 : sortedKeys pairs = [] := by
      cases hs : sortedKeys pairs with
      | nil => rfl
      | cons a l => rw [groupSumSorted, hs] at h; cases h
    have h3 : (pairs.map (fun p => p.1)).dedup = [] := by
      have hp := List.perm_insertionSort (fun a b : Int => a ≤ b) (pairs.map (fun p => p.1)).dedup
      unfold sortedKeys at h2
      rw [h2] at hp
      exact hp.symm.eq_nil
    have h4 := (List.dedup_eq_nil _).mp h3
    cases pairs with
    | nil => rfl
    | cons q qs => cases h4
  · intro h
    subst h
    rfl

/-- Lookup over a keyed map hits iff the key occurs. -/
theorem find?_keyed (f : Int → Int) (l : List Int) (k : Int) :
    (l.map (fun k2 => (k2, f k2))).find? (fun p => p.1 = k)
      = if k ∈ l then some (k, f k) else none := by
  induction l with
  | nil => simp
  | cons a as ih =>
    by_cases hak : a = k
    · subst hak
      rw [List.map_cons, List.find?_cons_of_pos _ (by simp), if_pos (List.mem_cons_self _ _)]
    · rw [List.map_cons, List.find?_cons_of_neg _ (by simpa using hak), ih]
      have hmem : (k ∈ a :: as) ↔ k ∈ as := by
        constructor
        · intro h
          rcases List.mem_cons.mp h with h | h
          · exact absurd h.symm hak
          · exact h
        · exact List.mem_cons_of_mem _
      rw [if_congr hmem rfl rfl]

/-- Reading the grouped series with default 0 gives the key's unit sum. -/
theorem getSum_groupSumSorted (pairs : List (Int × Int)) (k : Int) :
    getSum (groupSumSorted pairs) k = sumUnits pairs k := by
  unfold getSum groupSumSorted
  rw [find?_keyed]
  by_cases hk : k ∈ sortedKeys pairs
  · simp [hk]
  · simp only [hk, if_false]
    exact (sumUnits_eq_zero (fun hc => hk (mem_sortedKeys.mpr hc))).symm

/-- Unit sums over a filtered Sales table, key by key. -/
theorem sumUnits_filter_map (ventas : List VentaRow) (c : VentaRow → Bool) (k : Int) :
    sumUnits ((ventas.filter c).map (fun v => (v.sku, v.unidades))) k
      = ((ventas.filter (fun v => c v ∧ v.sku = k)).map (·.unidades)).sum := by
  induction ventas with
  | nil => rfl
  | cons v vs ih =>
    by_cases hc : c v = true
    · by_cases hk : v.sku = k
      · rw [List.filter_cons_of_pos (by simpa using hc), List.map_cons, sumUnits_cons,
          List.filter_cons_of_pos (by simp [hc, hk]), List.map_cons, List.sum_cons, ih]
        simp [hk]
      · rw [List.filter_cons_of_pos (by simpa using hc), List.map_cons, sumUnits_cons,
          List.filter_cons_of_neg (by simp [hk]), ih]
        simp [hk]
    · rw [List.filter_cons_of_neg (by simpa using hc),
        List.filter_cons_of_neg (by simp [hc]), ih]

/-- Unit sums over the raw Sales table, key by key. -/
theorem sumUnits_map (ventas : List VentaRow) (k : Int) :
    sumUnits (ventas.map (fun v => (v.sku, v.unidades))) k
      = ((ventas.filter (fun v => v.sku = k)).map (·.unidades)).sum := by
  have h := sumUnits_filter_map ventas (fun _ => true) k
  simpa using h

/-- A successful `iloc[0]` lookup returns a stored row with the SKU
searched for. -/
theorem firstStock_some {stock : List StockRow} {sku : Int} {r : StockRow}
    (h : firstStock stock sku = some r) : r ∈ stock ∧ r.sku = sku := by
  refine ⟨List.mem_of_find?_eq_some h, ?_⟩
  have h2 := List.find?_some h
  simpa using h2

/-- With unique SKUs, looking a stored row's SKU up returns that row. -/
theorem firstStock_self {stock : List StockRow} {r : StockRow}
    (hN : (stock.map (·.sku)).Nodup) (hr : r ∈ stock) :
    firstStock stock r.sku = some r := by
  induction stock with
  | nil => cases hr
  | cons a as ih =>
    simp only [List.map_cons] at hN
    have hN2 := List.nodup_cons.mp hN
    rcases List.mem_cons.mp hr with h | h
    · subst h
      unfold firstStock
      rw [List.find?_cons_of_pos _ (by simp)]
    · have hne : ¬ a.sku = r.sku := by
        intro hc
        exact hN2.1 (hc ▸ List.mem_map.mpr ⟨r, h, rfl⟩)
      unfold firstStock
      rw [List.find?_cons_of_neg _ (by simpa using hne)]
      exact ih hN2.2 h

/-- Deduplication keeps exactly the elements of the input. -/
theorem mem_dedupFirst {l : List Int} {a : Int} : a ∈ dedupFirst l ↔ a ∈ l := by
  induction l with
  | nil => simp [dedupFirst]
  | cons x xs ih =>
    simp only [dedupFirst, List.mem_cons, List.mem_filter, ih, decide_eq_true_eq]
    by_cases hax : a = x
    · simp [hax]
    · simp [hax]

/-- Deduplication produces a list with no duplicates. -/
theorem nodup_dedupFirst (l : List Int) : (dedupFirst l).Nodup := by
  induction l with
  | nil => exact List.nodup_nil
  | cons x xs ih =>
    refine List.nodup_cons.mpr ⟨?_, ih.filter _⟩
    intro hx
    have := (List.mem_filter.mp hx).2
    simp at this

/-- The computable floor is non-negative on non-negative rationals. -/
theorem ratFloor_nonneg {q : Rat} (h : 0 ≤ q) : 0 ≤ ratFloor q := by
  unfold ratFloor
  have hnum : 0 ≤ q.num := Rat.num_nonneg.mpr h
  exact Int.ediv_nonneg hnum (by positivity)

/-- Half-even rounding preserves non-negativity. -/
theorem roundHalfEven_nonneg {q : Rat} (h : 0 ≤ q) : 0 ≤ roundHalfEven q := by
  have hf : 0 ≤ ratFloor q := ratFloor_nonneg h
  unfold roundHalfEven
  split_ifs <;> omega

/-- Rounding to two decimals preserves non-negativity. -/
theorem round2_nonneg {q : Rat} (h : 0 ≤ q) : 0 ≤ round2 q := by
  unfold round2
  have h1 : (0 : Rat) ≤ q * 100 := by positivity
  have h2 : (0 : Int) ≤ roundHalfEven (q * 100) := roundHalfEven_nonneg h1
  have h3 : (0 : Rat) ≤ ((roundHalfEven (q * 100) : Int) : Rat) := by exact_mod_cast h2
  positivity

/-- A successful lookup loop of `top_n_vendidos_mes` preserves length and
totals, and each output pairs a ranked SKU with its looked-up Stock row. -/
theorem lookupTop_spec {stock : List StockRow} {l : List (Int × Int)}
    {res : List TopOut} (h : lookupTop stock l = some res) :
    res.length = l.length ∧
      res.map (fun o => o.totalVendidoMes) = l.map (fun p => p.2) ∧
      ∀ o ∈ res, ∃ p ∈ l, firstStock stock p.1 = some o.row ∧ o.totalVendidoMes = p.2 := by
  induction l generalizing res with
  | nil =>
    simp only [lookupTop, Option.some_inj] at h
    subst h
    simp
  | cons p rest ih =>
    rcases p with ⟨sku, total⟩
    simp only [lookupTop] at h
    cases hf : firstStock stock sku with
    | none => rw [hf] at h; cases h
    | some r =>
      rw [hf] at h
      rcases Option.map_eq_some'.mp h with ⟨l2, hl2, hres⟩
      subst hres
      rcases ih hl2 with ⟨hlen, hmap, hmem⟩
      refine ⟨by simp [hlen], by simp [hmap], ?_⟩
      intro o ho
      rcases List.mem_cons.mp ho with h1 | h1
      · subst h1
        exact ⟨(sku, total), List.mem_cons_self _ _, hf, rfl⟩
      · rcases hmem o h1 with ⟨q, hq, hq2⟩
        exact ⟨q, List.mem_cons_of_mem _ hq, hq2⟩

/-- The event scan distributes over concatenation of History tables. -/
theorem eventos_append (a b : List HistRow) :
    eventos_detectados (a ++ b) = eventos_detectados a ++ eventos_detectados b := by
  induction a with
  | nil => rfl
  | cons r rest ih => simp [eventos_detectados, ih]

/-- The descending-total relation used to model descending `sort_values`
is total. -/
instance : IsTotal (Int × Int) (fun a b => b.2 ≤ a.2) :=
  ⟨fun a b => le_total b.2 a.2⟩

/-- The descending-total relation is transitive. -/
instance : IsTrans (Int × Int) (fun a b => b.2 ≤ a.2) :=
  ⟨fun _ _ _ h1 h2 => le_trans h2 h1⟩

/-- The stockout events of the scan are the `Stock == 0` rows in order. -/
theorem eventos_filter_rotura (historico_df : List HistRow) :
    ((eventos_detectados historico_df).filter (fun e => e.tipo = "rotura_stock"))
      = (historico_df.filter (fun r => r.stock = 0)).map mkRotura := by
  induction historico_df with
  | nil => rfl
  | cons r rest ih =>
    by_cases h0 : r.stock = 0 <;> by_cases h1 : r.reposicion = 1 <;>
      simp [eventos_detectados, List.filter_cons, h0, h1, mkRotura, mkReposicion, ih]

/-- The restock events of the scan are the `Reposicion == 1` rows in order. -/
theorem eventos_filter_reposicion (historico_df : List HistRow) :
    ((eventos_detectados historico_df).filter (fun e => e.tipo = "reposicion"))
      = (historico_df.filter (fun r => r.reposicion = 1)).map mkReposicion := by
  induction historico_df with
  | nil => rfl
  | cons r rest ih =>
    by_cases h0 : r.stock = 0 <;> by_cases h1 : r.reposicion = 1 <;>
      simp [eventos_detectados, List.filter_cons, h0, h1, mkRotura, mkReposicion, ih]

-- --- the claims ---

/-- Claim C2: for every Stock table and every row, the row appears in the
low-stock output iff its `Stock` is at most its `Umbral`, and every output
record is a stored product record unchanged. -/
theorem claim_C2 (stock_df : List StockRow) (r : StockRow) :
    r ∈ productos_bajo_stock stock_df ↔ r ∈ stock_df ∧ r.stock ≤ r.umbral := by
  simp [productos_bajo_stock, List.mem_filter]

/-- Claim C9: the dashboard global summary is a projection of the full
Global Metrics record computed on the same inputs: distinct product count,
total units sold and rotation average coincide field by field. -/
theorem claim_C9 (stock_df : List StockRow) (ventas_df : List VentaRow)
    (historico_df : List HistRow) :
    (resumen_global_dashboard stock_df ventas_df historico_df).totalProductos
        = (metricas_globales stock_df ventas_df historico_df).numProductos ∧
      (resumen_global_dashboard stock_df ventas_df historico_df).totalVendido
        = (metricas_globales stock_df ventas_df historico_df).totalVendido ∧
      (resumen_global_dashboard stock_df ventas_df historico_df).promedioRotacion
        = (metricas_globales stock_df ventas_df historico_df).mediaRotacionPorProducto :=
  ⟨rfl, rfl, rfl⟩

/-- Claim C6: event extraction emits exactly one stockout event per History
row with `Stock == 0` and one restock event per row with `Reposicion == 1`
(the per-type event subsequences equal the corresponding filtered row lists
in order, so counts match), a row satisfying both conditions emits two
events, and the emitted events preserve the History table's row order: for
every split of the table, all events of the earlier rows come before all
events of the later rows (the scan distributes over concatenation), so the
cross-type interleaving follows the rows. -/
theorem claim_C6 (historico_df : List HistRow) :
    ((eventos_detectados historico_df).filter (fun e => e.tipo = "rotura_stock"))
        = (historico_df.filter (fun r => r.stock = 0)).map mkRotura ∧
      ((eventos_detectados historico_df).filter (fun e => e.tipo = "reposicion"))
        = (historico_df.filter (fun r => r.reposicion = 1)).map mkReposicion ∧
      ((eventos_detectados historico_df).filter (fun e => e.tipo = "rotura_stock")).length
        = (historico_df.filter (fun r => r.stock = 0)).length ∧
      ((eventos_detectados historico_df).filter (fun e => e.tipo = "reposicion")).length
        = (historico_df.filter (fun r => r.reposicion = 1)).length ∧
      (∀ pre post : List HistRow, historico_df = pre ++ post →
        eventos_detectados historico_df
          = eventos_detectados pre ++ eventos_detectados post) ∧
      ∀ r : HistRow, r.stock = 0 → r.reposicion = 1 →
        eventos_detectados [r] = [mkRotura r, mkReposicion r] := by
  have hrot := eventos_filter_rotura historico_df
  have hrep := eventos_filter_reposicion historico_df
  refine ⟨hrot, hrep, by rw [hrot, List.length_map], by rw [hrep, List.length_map], ?_, ?_⟩
  · intro pre post hsplit
    rw [hsplit]
    exact eventos_append pre post
  · intro r h0 h1
    simp [eventos_detectados, h0, h1]

/-- Witness for C6 at a concrete two-row History table: the split identity
and the two-event emission of the both-condition row, via the theorem. -/
theorem claim_C6_witness :
    (eventos_detectados [⟨⟨2024, 1, 1⟩, 5, 2, 1, 0, 10, 10⟩, ⟨⟨2024, 1, 2⟩, 7, 0, 3, 1, 10, 30⟩]
        = eventos_detectados [⟨⟨2024, 1, 1⟩, 5, 2, 1, 0, 10, 10⟩]
            ++ eventos_detectados [⟨⟨2024, 1, 2⟩, 7, 0, 3, 1, 10, 30⟩]) ∧
      eventos_detectados [⟨⟨2024, 1, 2⟩, 7, 0, 3, 1, 10, 30⟩]
        = [mkRotura ⟨⟨2024, 1, 2⟩, 7, 0, 3, 1, 10, 30⟩,
            mkReposicion ⟨⟨2024, 1, 2⟩, 7, 0, 3, 1, 10, 30⟩] :=
  ⟨(claim_C6 [⟨⟨2024, 1, 1⟩, 5, 2, 1, 0, 10, 10⟩,
        ⟨⟨2024, 1, 2⟩, 7, 0, 3, 1, 10, 30⟩]).2.2.2.2.1
      [⟨⟨2024, 1, 1⟩, 5, 2, 1, 0, 10, 10⟩] [⟨⟨2024, 1, 2⟩, 7, 0, 3, 1, 10, 30⟩] rfl,
    (claim_C6 [⟨⟨2024, 1, 2⟩, 7, 0, 3, 1, 10, 30⟩]).2.2.2.2.2
      ⟨⟨2024, 1, 2⟩, 7, 0, 3, 1, 10, 30⟩ rfl rfl⟩

/-- Claim C10: a History row with both `Stock == 0` and `Reposicion == 1`
emits its stockout event immediately before its restock event, wherever
the row sits in the table. -/
theorem claim_C10 (pre post : List HistRow) (r : HistRow)
    (h0 : r.stock = 0) (h1 : r.reposicion = 1) :
    eventos_detectados (pre ++ r :: post)
      = eventos_detectados pre ++ mkRotura r :: mkReposicion r :: eventos_detectados post := by
  rw [eventos_append]
  simp [eventos_detectados, h0, h1]

/-- Witness for C10 at a concrete three-row History table. -/
theorem claim_C10_witness :
    eventos_detectados
        [⟨⟨2024, 1, 1⟩, 5, 2, 1, 0, 10, 10⟩,
          ⟨⟨2024, 1, 2⟩, 7, 0, 3, 1, 10, 30⟩,
          ⟨⟨2024, 1, 3⟩, 5, 0, 1, 0, 10, 10⟩]
      = eventos_detectados [⟨⟨2024, 1, 1⟩, 5, 2, 1, 0, 10, 10⟩] ++
          mkRotura ⟨⟨2024, 1, 2⟩, 7, 0, 3, 1, 10, 30⟩ ::
            mkReposicion ⟨⟨2024, 1, 2⟩, 7, 0, 3, 1, 10, 30⟩ ::
              eventos_detectados [⟨⟨2024, 1, 3⟩, 5, 0, 1, 0, 10, 10⟩] :=
  claim_C10 [⟨⟨2024, 1, 1⟩, 5, 2, 1, 0, 10, 10⟩] [⟨⟨2024, 1, 3⟩, 5, 0, 1, 0, 10, 10⟩]
    ⟨⟨2024, 1, 2⟩, 7, 0, 3, 1, 10, 30⟩ rfl rfl

/-- Claim C8: the last-analysis date is the later of the maximum Sales
date and the maximum History date (an upper bound of all dates of both
tables and itself a date of one of them), and it is the empty sentinel
exactly when both tables are empty. -/
theorem claim_C8 (ventas_df : List VentaRow) (historico_df : List HistRow) :
    (fecha_ultimo_analisis ventas_df historico_df = none ↔
        ventas_df = [] ∧ historico_df = []) ∧
      ∀ d, fecha_ultimo_analisis ventas_df historico_df = some d →
        (∀ v ∈ ventas_df, v.fecha.toOrdinal ≤ d.toOrdinal) ∧
          (∀ h ∈ historico_df, h.fecha.toOrdinal ≤ d.toOrdinal) ∧
          (d ∈ ventas_df.map (·.fecha) ∨ d ∈ historico_df.map (·.fecha)) := by
  unfold fecha_ultimo_analisis
  constructor
  · rw [maxFecha_eq_none, List.append_eq_nil]
    constructor
    · rintro ⟨h1, h2⟩
      constructor
      · cases hv2 : maxFecha (ventas_df.map (·.fecha)) with
        | none => exact List.map_eq_nil_iff.mp (maxFecha_eq_none.mp hv2)
        | some m => rw [hv2] at h1; cases h1
      · cases hh2 : maxFecha (historico_df.map (·.fecha)) with
        | none => exact List.map_eq_nil_iff.mp (maxFecha_eq_none.mp hh2)
        | some m => rw [hh2] at h2; cases h2
    · rintro ⟨hv2, hh2⟩
      subst hv2
      subst hh2
      exact ⟨rfl, rfl⟩
  · intro d hd
    have hmem := maxFecha_mem hd
    have hub := maxFecha_ub hd
    constructor
    · intro v hv
      cases hmax : maxFecha (ventas_df.map (·.fecha)) with
      | none =>
        have : ventas_df = [] := List.map_eq_nil.mp (maxFecha_eq_none.mp hmax)
        subst this
        cases hv
      | some m1 =>
        have h1 : v.fecha.toOrdinal ≤ m1.toOrdinal :=
          maxFecha_ub hmax _ (List.mem_map.mpr ⟨v, hv, rfl⟩)
        have h2 : m1.toOrdinal ≤ d.toOrdinal := by
          refine hub m1 ?_
          rw [hmax]
          exact List.mem_append.mpr (Or.inl (by simp [Option.toList]))
        omega
    constructor
    · intro h hh
      cases hmax : maxFecha (historico_df.map (·.fecha)) with
      | none =>
        have : historico_df = [] := List.map_eq_nil.mp (maxFecha_eq_none.mp hmax)
        subst this
        cases hh
      | some m2 =>
        have h1 : h.fecha.toOrdinal ≤ m2.toOrdinal :=
          maxFecha_ub hmax _ (List.mem_map.mpr ⟨h, hh, rfl⟩)
        have h2 : m2.toOrdinal ≤ d.toOrdinal := by
          refine hub m2 ?_
          rw [hmax]
          exact List.mem_append.mpr (Or.inr (by simp [Option.toList]))
        omega
    · rcases List.mem_append.mp hmem with h | h
      · left
        cases hmax : maxFecha (ventas_df.map (·.fecha)) with
        | none => rw [hmax] at h; cases h
        | some m1 =>
          rw [hmax] at h
          simp only [Option.toList, List.mem_singleton] at h
          subst h
          exact maxFecha_mem hmax
      · right
        cases hmax : maxFecha (historico_df.map (·.fecha)) with
        | none => rw [hmax] at h; cases h
        | some m2 =>
          rw [hmax] at h
          simp only [Option.toList, List.mem_singleton] at h
          subst h
          exact maxFecha_mem hmax

/-- Witness for C8 at a one-row Sales table and empty History table. -/
theorem claim_C8_witness :
    (∀ v ∈ [(⟨⟨2024, 1, 5⟩, 1, 2⟩ : VentaRow)],
        v.fecha.toOrdinal ≤ (Fecha.mk 2024 1 5).toOrdinal) ∧
      (∀ h ∈ ([] : List HistRow), h.fecha.toOrdinal ≤ (Fecha.mk 2024 1 5).toOrdinal) ∧
      ((⟨2024, 1, 5⟩ : Fecha) ∈ [(⟨⟨2024, 1, 5⟩, 1, 2⟩ : VentaRow)].map (·.fecha) ∨
        (⟨2024, 1, 5⟩ : Fecha) ∈ ([] : List HistRow).map (·.fecha)) :=
  (claim_C8 [⟨⟨2024, 1, 5⟩, 1, 2⟩] []).2 ⟨2024, 1, 5⟩ rfl

/-- Claim C3: with the Stock invariant that SKUs are unique, a Stock row is
in the dead-stock output (default threshold 14) iff its SKU never appears
in Sales, or its most recent sale date is at least 14 days before the
maximum date across all Sales rows. -/
theorem claim_C3 (ventas_df : List VentaRow) (stock_df : List StockRow)
    (hN : (stock_df.map (·.sku)).Nodup) (r : StockRow) :
    r ∈ productos_muertos ventas_df stock_df 14 ↔
      r ∈ stock_df ∧
        (ventas_df.filter (fun v => v.sku = r.sku) = [] ∨
          ∃ m u, maxFecha (ventas_df.map (·.fecha)) = some m ∧
            maxFecha ((ventas_df.filter (fun v => v.sku = r.sku)).map (·.fecha)) = some u ∧
            14 ≤ m.toOrdinal - u.toOrdinal) := by
  unfold productos_muertos
  rw [List.mem_filterMap]
  constructor
  · rintro ⟨sku, hsku, hf⟩
    cases hult : maxFecha ((ventas_df.filter (fun v => v.sku = sku)).map (·.fecha)) with
    | none =>
      simp only [hult] at hf
      have hfs := firstStock_some hf
      refine ⟨hfs.1, Or.inl ?_⟩
      rw [hfs.2]
      exact List.map_eq_nil_iff.mp (maxFecha_eq_none.mp hult)
    | some u =>
      cases hmax : maxFecha (ventas_df.map (·.fecha)) with
      | none =>
        simp only [hult, hmax] at hf
        cases hf
      | some m =>
        simp only [hult, hmax] at hf
        by_cases h14 : (14 : Int) ≤ m.toOrdinal - u.toOrdinal
        · rw [if_pos h14] at hf
          have hfs := firstStock_some hf
          refine ⟨hfs.1, Or.inr ⟨m, u, rfl, ?_, h14⟩⟩
          rw [hfs.2]
          exact hult
        · rw [if_neg h14] at hf
          cases hf
  · rintro ⟨hr, hcond⟩
    refine ⟨r.sku, List.mem_map.mpr ⟨r, hr, rfl⟩, ?_⟩
    rcases hcond with h | ⟨m, u, hm, hu, h14⟩
    · have hnone : maxFecha ((ventas_df.filter (fun v => v.sku = r.sku)).map (·.fecha)) = none := by
        rw [h]
        rfl
      simp only [hnone]
      exact firstStock_self hN hr
    · simp only [hu, hm, if_pos h14]
      exact firstStock_self hN hr

/-- Witness for C3: with an empty Sales table, the only Stock row (which
has never sold) is flagged dead. -/
theorem claim_C3_witness :
    (⟨1, "camiseta", "ropa", "M", "rojo", 5, 10, 10⟩ : StockRow) ∈
      productos_muertos [] [⟨1, "camiseta", "ropa", "M", "rojo", 5, 10, 10⟩] 14 :=
  (claim_C3 [] [⟨1, "camiseta", "ropa", "M", "rojo", 5, 10, 10⟩] (by simp)
      ⟨1, "camiseta", "ropa", "M", "rojo", 5, 10, 10⟩).mpr
    ⟨by simp, Or.inl rfl⟩

/-- Claim C7: when the Sales day span is 0 or undefined, or no SKU has
sales, the slow-rotation scan computes a global average of 0, flags no
SKU, and returns normally (no division error is propagated). -/
theorem claim_C7 (ventas_df : List VentaRow) (historico_df : List HistRow)
    (stock_df : List StockRow) (umbral : Rat)
    (hdeg : spanDias ventas_df = none ∨ spanDias ventas_df = some 0 ∨
      groupSumSorted (ventas_df.map (fun v => (v.sku, v.unidades))) = []) :
    mediaGlobal ventas_df = some 0 ∧
      productos_rotacion_lenta ventas_df historico_df stock_df umbral = some [] := by
  have hv : ventas_df = [] := by
    rcases hdeg with h | h | h
    · exact spanDias_eq_none.mp h
    · exact absurd (spanDias_pos h) (by omega)
    · exact List.map_eq_nil.mp (groupSumSorted_eq_nil.mp h)
  subst hv
  exact ⟨rfl, rfl⟩

/-- Witness for C7 at the empty Sales table. -/
theorem claim_C7_witness :
    mediaGlobal [] = some 0 ∧ productos_rotacion_lenta [] [] [] (1 / 2) = some [] :=
  claim_C7 [] [] [] (1 / 2) (Or.inl rfl)

/-- Unit sums over the month-restricted Sales table, key by key. -/
theorem sumUnits_mes (ventas : List VentaRow) (mo yr k : Int) :
    sumUnits ((ventas.filter (fun v => v.fecha.month = mo ∧ v.fecha.year = yr)).map
        (fun v => (v.sku, v.unidades))) k
      = ((ventas.filter (fun v =>
          (v.fecha.month = mo ∧ v.fecha.year = yr) ∧ v.sku = k)).map (·.unidades)).sum := by
  induction ventas with
  | nil => rfl
  | cons v vs ih =>
    by_cases hc : v.fecha.month = mo ∧ v.fecha.year = yr
    · by_cases hk : v.sku = k
      · rw [List.filter_cons_of_pos (by simpa using hc), List.map_cons, sumUnits_cons,
          List.filter_cons_of_pos (by simp [hc, hk]), List.map_cons, List.sum_cons, ih]
        simp [hk]
      · rw [List.filter_cons_of_pos (by simpa using hc), List.map_cons, sumUnits_cons,
          List.filter_cons_of_neg (by simp [hk]), ih]
        simp [hk]
    · rw [List.filter_cons_of_neg (by simpa using hc),
        List.filter_cons_of_neg (by simp [hc]), ih]

/-- A successful lookup loop applied to a list sorted by non-increasing
totals yields an output sorted by non-increasing `totalVendidoMes`. -/
theorem lookupTop_sorted {stock : List StockRow} {l : List (Int × Int)} {res : List TopOut}
    (h : lookupTop stock l = some res)
    (hs : List.Pairwise (fun a b : Int × Int => b.2 ≤ a.2) l) :
    List.Pairwise (fun a b : TopOut => b.totalVendidoMes ≤ a.totalVendidoMes) res := by
  have hmap := (lookupTop_spec h).2.1
  have h1 : List.Pairwise (fun x y : Int => y ≤ x) (l.map (fun p => p.2)) :=
    List.pairwise_map.mpr hs
  rw [← hmap] at h1
  exact List.pairwise_map.mp h1

/-- Claim C4: for every non-empty Sales table and every N, a successful
top-N-for-the-month result has at most N rows, is sorted by non-increasing
summed units, and each row's total is the sum of that SKU's units within
the calendar month/year of the maximum Sales date; on the empty Sales
table the output is the empty sequence. -/
theorem claim_C4 (ventas_df : List VentaRow) (stock_df : List StockRow) (n : Nat) :
    top_n_vendidos_mes [] stock_df n = some [] ∧
      ∀ res, top_n_vendidos_mes ventas_df stock_df n = some res →
        res.length ≤ n ∧
          List.Sorted (fun a b => b.totalVendidoMes ≤ a.totalVendidoMes) res ∧
          ∀ o ∈ res, ∃ m, maxFecha (ventas_df.map (·.fecha)) = some m ∧
            o.totalVendidoMes =
              ((ventas_df.filter (fun v =>
                  (v.fecha.month = m.month ∧ v.fecha.year = m.year) ∧ v.sku = o.row.sku)).map
                (·.unidades)).sum := by
  refine ⟨rfl, ?_⟩
  intro res hres
  by_cases hvnil : ventas_df = []
  · subst hvnil
    have h0 : some ([] : List TopOut) = some res := hres
    have : res = [] := (Option.some_inj.mp h0).symm
    subst this
    simp
  · unfold top_n_vendidos_mes at hres
    rw [if_neg hvnil] at hres
    cases hmax : maxFecha (ventas_df.map (·.fecha)) with
    | none =>
      exact absurd (List.map_eq_nil_iff.mp (maxFecha_eq_none.mp hmax)) hvnil
    | some mx =>
      simp only [hmax] at hres
      obtain ⟨hlen, hmap, hmem⟩ := lookupTop_spec hres
      have hsorted : List.Pairwise (fun a b : Int × Int => b.2 ≤ a.2)
          ((List.insertionSort (fun a b : Int × Int => b.2 ≤ a.2)
            (groupSumSorted ((ventas_df.filter (fun v =>
              v.fecha.month = mx.month ∧ v.fecha.year = mx.year)).map
                (fun v => (v.sku, v.unidades))))).take n) :=
        List.Pairwise.sublist (List.take_sublist _ _) (List.sorted_insertionSort _ _)
      refine ⟨?_, ?_, ?_⟩
      · rw [hlen]
        exact List.length_take_le _ _
      · exact lookupTop_sorted hres hsorted
      · intro o ho
        obtain ⟨p, hp, hfs, htot⟩ := hmem o ho
        have hpg := (List.perm_insertionSort (fun a b : Int × Int => b.2 ≤ a.2) _).mem_iff.mp
          (List.mem_of_mem_take hp)
        obtain ⟨hval, _⟩ := mem_groupSumSorted hpg
        have hsku : o.row.sku = p.1 := (firstStock_some hfs).2
        refine ⟨mx, rfl, ?_⟩
        rw [htot, hval, hsku]
        exact sumUnits_mes ventas_df mx.month mx.year p.1

/-- Witness for C4 at a one-row Sales table and its Stock row. -/
theorem claim_C4_witness :
    top_n_vendidos_mes [⟨⟨2024, 1, 1⟩, 1, 2⟩]
        [⟨1, "camiseta", "ropa", "M", "rojo", 5, 10, 10⟩] 5
      = some [⟨⟨1, "camiseta", "ropa", "M", "rojo", 5, 10, 10⟩, 2⟩] ∧
      [(⟨⟨1, "camiseta", "ropa", "M", "rojo", 5, 10, 10⟩, 2⟩ : TopOut)].length ≤ 5 :=
  ⟨by decide,
    ((claim_C4 [⟨⟨2024, 1, 1⟩, 1, 2⟩] [⟨1, "camiseta", "ropa", "M", "rojo", 5, 10, 10⟩] 5).2
      [⟨⟨1, "camiseta", "ropa", "M", "rojo", 5, 10, 10⟩, 2⟩] (by decide)).1⟩

/-- First components of a keyed map are the key list itself. -/
theorem map_fst_keyed {β : Type} (f : Int → β) (l : List Int) :
    (l.map (fun k => (k, f k))).map (fun p => p.1) = l := by
  induction l with
  | nil => rfl
  | cons a as ih => simp [ih]

/-- The keys of the Sales pair list are the Sales SKUs. -/
theorem map_fst_pairs (ventas : List VentaRow) :
    (ventas.map (fun v => (v.sku, v.unidades))).map (fun p => p.1)
      = ventas.map (fun v => v.sku) := by
  induction ventas with
  | nil => rfl
  | cons v vs ih => simp [ih]

/-- Claim C5 counterexample: on the empty Sales table with one Stock row,
the velocity entry of that SKU is the `NaN` produced by dividing by the
`NaN` day span (which is truthy, so the `0`-substitution guard does not
fire); it is not a non-negative number, contradicting the claim as
stated for every Stock and Sales table. -/
theorem claim_C5_counterexample :
    ¬ ∀ p ∈ estimaciones_velocidad_venta []
        [⟨1, "camiseta", "ropa", "M", "rojo", 5, 10, 10⟩],
        ∃ q : Rat, p.2 = some q ∧ 0 ≤ q := by
  intro h
  have he : estimaciones_velocidad_venta []
      [⟨1, "camiseta", "ropa", "M", "rojo", 5, 10, 10⟩]
        = [((1 : Int), (none : Option Rat))] := rfl
  have hmem : ((1 : Int), (none : Option Rat)) ∈ estimaciones_velocidad_venta []
      [⟨1, "camiseta", "ropa", "M", "rojo", 5, 10, 10⟩] := by
    rw [he]
    exact List.mem_singleton_self _
  rcases h _ hmem with ⟨q, hq, _⟩
  cases hq

/-- Claim C5, amended to non-empty Sales tables (on the empty table the
day span is the `NaN` of `NaT` arithmetic — truthy, never 0 — and every
velocity entry is `NaN`): the velocity map has exactly one entry per
distinct Stock SKU, the average map exactly one entry per distinct Sales
SKU, and, with the data-model invariant that units sold are non-negative,
every entry equals the SKU's total units divided by the (at least 1, hence
never 0) inclusive day span, rounded to 2 decimals, and is non-negative. -/
theorem claim_C5_amended (ventas_df : List VentaRow) (stock_df : List StockRow)
    (hne : ventas_df ≠ []) (hu : ∀ v ∈ ventas_df, 0 ≤ v.unidades) :
    (∀ sku : Int, sku ∈ (estimaciones_velocidad_venta ventas_df stock_df).map (fun p => p.1) ↔
        sku ∈ stock_df.map (fun r => r.sku)) ∧
      ((estimaciones_velocidad_venta ventas_df stock_df).map (fun p => p.1)).Nodup ∧
      (∀ sku : Int, sku ∈ (promedios_unidades_vendidas ventas_df).map (fun p => p.1) ↔
        sku ∈ ventas_df.map (fun v => v.sku)) ∧
      ((promedios_unidades_vendidas ventas_df).map (fun p => p.1)).Nodup ∧
      (∀ p ∈ estimaciones_velocidad_venta ventas_df stock_df, ∃ d : Int,
        spanDias ventas_df = some d ∧ 1 ≤ d ∧
          p.2 = some (round2
            ((((((ventas_df.filter (fun v => v.sku = p.1)).map (·.unidades)).sum : Int) : Rat))
              / (d : Rat))) ∧
          ∃ q : Rat, p.2 = some q ∧ 0 ≤ q) ∧
      (∀ p ∈ promedios_unidades_vendidas ventas_df, ∃ d : Int,
        spanDias ventas_df = some d ∧ 1 ≤ d ∧
          p.2 = some (round2
            ((((((ventas_df.filter (fun v => v.sku = p.1)).map (·.unidades)).sum : Int) : Rat))
              / (d : Rat))) ∧
          ∃ q : Rat, p.2 = some q ∧ 0 ≤ q) := by
  obtain ⟨d, hd⟩ : ∃ d, spanDias ventas_df = some d := by
    cases hs : spanDias ventas_df with
    | none => exact absurd (spanDias_eq_none.mp hs) hne
    | some d => exact ⟨d, rfl⟩
  have hd1 : 1 ≤ d := spanDias_pos hd
  have hkeysE : (estimaciones_velocidad_venta ventas_df stock_df).map (fun p => p.1)
      = dedupFirst (stock_df.map (fun r => r.sku)) := by
    unfold estimaciones_velocidad_venta
    exact map_fst_keyed _ _
  have hkeysP : (promedios_unidades_vendidas ventas_df).map (fun p => p.1)
      = sortedKeys (ventas_df.map (fun v => (v.sku, v.unidades))) := by
    unfold promedios_unidades_vendidas
    rw [map_fst_keyed, keys_groupSumSorted]
  have hval : ∀ sku : Int,
      velEntry (spanDias ventas_df)
          (getSum (groupSumSorted (ventas_df.map (fun v => (v.sku, v.unidades)))) sku)
        = some (round2
            ((((((ventas_df.filter (fun v => v.sku = sku)).map (·.unidades)).sum : Int) : Rat))
              / (d : Rat))) := by
    intro sku
    rw [hd, getSum_groupSumSorted, sumUnits_map]
    simp only [velEntry]
    rw [if_neg (by omega)]
  have hnn : ∀ sku : Int, (0 : Rat) ≤ round2
      ((((((ventas_df.filter (fun v => v.sku = sku)).map (·.unidades)).sum : Int) : Rat))
        / (d : Rat)) := by
    intro sku
    refine round2_nonneg (div_nonneg ?_ (by exact_mod_cast le_trans zero_le_one hd1))
    have hs : (0 : Int) ≤ ((ventas_df.filter (fun v => v.sku = sku)).map (·.unidades)).sum := by
      refine List.sum_nonneg ?_
      intro x hx
      rcases List.mem_map.mp hx with ⟨v, hv, hxv⟩
      rw [← hxv]
      exact hu v (List.mem_filter.mp hv).1
    exact_mod_cast hs
  refine ⟨?_, ?_, ?_, ?_, ?_, ?_⟩
  · intro sku
    rw [hkeysE, mem_dedupFirst]
  · rw [hkeysE]
    exact nodup_dedupFirst _
  · intro sku
    rw [hkeysP, mem_sortedKeys, map_fst_pairs]
  · rw [hkeysP]
    exact nodup_sortedKeys _
  · intro p hp
    unfold estimaciones_velocidad_venta at hp
    rcases List.mem_map.mp hp with ⟨sku, _, hpe⟩
    refine ⟨d, hd, hd1, ?_, ?_⟩
    · rw [← hpe]
      exact hval sku
    · rw [← hpe]
      exact ⟨_, hval sku, hnn sku⟩
  · intro p hp
    unfold promedios_unidades_vendidas at hp
    rcases List.mem_map.mp hp with ⟨sku, _, hpe⟩
    refine ⟨d, hd, hd1, ?_, ?_⟩
    · rw [← hpe]
      exact hval sku
    · rw [← hpe]
      exact ⟨_, hval sku, hnn sku⟩

/-- Witness for the amended C5 at a concrete non-empty Sales table. -/
theorem claim_C5_amended_witness :
    ((estimaciones_velocidad_venta [⟨⟨2024, 1, 1⟩, 1, 2⟩]
        [⟨1, "camiseta", "ropa", "M", "rojo", 5, 10, 10⟩]).map (fun p => p.1)).Nodup :=
  (claim_C5_amended [⟨⟨2024, 1, 1⟩, 1, 2⟩] [⟨1, "camiseta", "ropa", "M", "rojo", 5, 10, 10⟩]
    (by decide) (by decide)).2.1

/-- Claim C1 (code-bug evidence): when a SKU that appears in Sales has no
matching Stock row, the three Stock-lookup operations do not skip it —
the `iloc[0]` lookup faults (modelled by `none`).  Concretely, with an
empty Stock table: slow-rotation flags SKU 2 (daily average 1 below half
the global average 11/2) and faults looking it up; top-N-of-the-month and
the dashboard top-3 fault looking up their first ranked SKU. -/
theorem claim_C1_crash :
    productos_rotacion_lenta [⟨⟨2024, 1, 1⟩, 1, 10⟩, ⟨⟨2024, 1, 1⟩, 2, 1⟩] [] [] (1 / 2)
        = none ∧
      top_n_vendidos_mes [⟨⟨2024, 1, 1⟩, 1, 2⟩] [] 5 = none ∧
      top_3_vendidos_dashboard [⟨⟨2024, 1, 1⟩, 1, 2⟩] [] = none := by
  refine ⟨?_, by decide, by decide⟩
  have hg : groupSumSorted
      (([⟨⟨2024, 1, 1⟩, 1, 10⟩, ⟨⟨2024, 1, 1⟩, 2, 1⟩] : List VentaRow).map
        (fun v => (v.sku, v.unidades)))
        = [(1, 10), (2, 1)] := by decide
  have hspan : spanDias [⟨⟨2024, 1, 1⟩, 1, 10⟩, ⟨⟨2024, 1, 1⟩, 2, 1⟩] = some 1 := by decide
  have hmg : mediaGlobal [⟨⟨2024, 1, 1⟩, 1, 10⟩, ⟨⟨2024, 1, 1⟩, 2, 1⟩] = some (11 / 2) := by
    simp only [mediaGlobal]
    rw [hg, hspan]
    norm_num
  have hmd1 : mediaDiariaVal (some 1) 10 = some 10 := by
    norm_num [mediaDiariaVal]
  have hmd2 : mediaDiariaVal (some 1) 1 = some 1 := by
    norm_num [mediaDiariaVal]
  have hlt1 : ¬ optLt (some 10) (optScale (1 / 2) (some (11 / 2))) := by
    simp only [optScale, Option.map, optLt]
    norm_num
  have hlt2 : optLt (some 1) (optScale (1 / 2) (some (11 / 2))) := by
    simp only [optScale, Option.map, optLt]
    norm_num
  simp only [productos_rotacion_lenta]
  rw [hg, hspan, hmg]
  simp only [rotLoop]
  rw [hmd1, hmd2, if_neg hlt1, if_pos hlt2]
  rfl
